import Mathlib

/-!
Verification of the custom JSON response decoders of the `untappd` client
library (`response.go`): `responseTime.UnmarshalJSON`,
`responseURL.UnmarshalJSON` and `responseBool.UnmarshalJSON`, together with
the parts of the Go standard library they depend on
(`encoding/json` shape checking, `fmt.Sprintf "%f"`, `time.ParseDuration`,
`net/url.Parse`), shallowly embedded as executable Lean functions.
-/

set_option maxRecDepth 8000

namespace Untappd

/-- Abstract syntax of JSON values. Numbers are modelled as exact rationals:
the Go code decodes JSON numbers into `float64`, and every finite IEEE-754
double is an exact rational; all concrete numbers appearing in theorems below
are exactly representable as doubles. -/
inductive Json where
  | null
  | bool (b : Bool)
  | num (q : ℚ)
  | str (s : String)
  | arr (elems : List Json)
  | obj (members : List (String × Json))

/-- Error produced by `encoding/json` when the JSON value does not fit the
shape of the Go target value (a `*json.UnmarshalTypeError`). -/
inductive JsonErr where
  | typeErr
deriving DecidableEq

/-- The anonymous struct `{ Time float64; Measure string }` that
`responseTime.UnmarshalJSON` decodes into. -/
structure TimeFields where
  time : ℚ
  measure : String
deriving DecidableEq

/-- ASCII lower-casing of a character (model of the ASCII case of Go's
case folding; all field keys involved are ASCII). -/
def asciiLowerChar (c : Char) : Char :=
  if 65 ≤ c.toNat ∧ c.toNat ≤ 90 then Char.ofNat (c.toNat + 32) else c

/-- ASCII lower-casing of a string (`strings.ToLower` for ASCII input). -/
def asciiLower (s : String) : String := String.mk (s.data.map asciiLowerChar)

/-- Field-name matching of `encoding/json`: an exact tag match, with a
case-insensitive fallback.  For the tags `"time"` and `"measure"` this is
equivalent to a case-insensitive comparison with the tag. -/
def keyMatch (k tag : String) : Bool := decide (asciiLower k = tag)

/-- Store a JSON value into the `Time float64` field: numbers are accepted,
a JSON `null` leaves the field untouched, anything else is a type error. -/
def setTimeField (acc : TimeFields) (v : Json) : Except JsonErr TimeFields :=
  match v with
  | .num q => .ok ⟨q, acc.measure⟩
  | .null => .ok acc
  | _ => .error .typeErr

/-- Store a JSON value into the `Measure string` field. -/
def setMeasureField (acc : TimeFields) (v : Json) : Except JsonErr TimeFields :=
  match v with
  | .str s => .ok ⟨acc.time, s⟩
  | .null => .ok acc
  | _ => .error .typeErr

/-- Walk the members of a JSON object in order, filling the struct fields
(later duplicate keys override earlier ones, unknown keys are ignored, as in
`encoding/json`).  The Go decoder records the first type error but the caller
never observes the partially filled struct in that case, so stopping at the
first type error is observationally equivalent. -/
def timeFieldsLoop (acc : TimeFields) : List (String × Json) → Except JsonErr TimeFields
  | [] => .ok acc
  | (k, v) :: rest =>
    if keyMatch k "time" then
      match setTimeField acc v with
      | .ok acc' => timeFieldsLoop acc' rest
      | .error e => .error e
    else if keyMatch k "measure" then
      match setMeasureField acc v with
      | .ok acc' => timeFieldsLoop acc' rest
      | .error e => .error e
    else timeFieldsLoop acc rest

/-- `json.Unmarshal` into `struct { Time float64; Measure string }`: the top
level value must be an object (a JSON `null` is ignored, leaving the zero
values); missing fields keep their zero values. -/
def unmarshalTimeFields : Json → Except JsonErr TimeFields
  | .obj kvs => timeFieldsLoop ⟨0, ""⟩ kvs
  | .null => .ok ⟨0, ""⟩
  | _ => .error .typeErr

/-- `json.Unmarshal` into a Go `string` variable. -/
def unmarshalString : Json → Except JsonErr String
  | .str s => .ok s
  | .null => .ok ""
  | _ => .error .typeErr

/-- `json.Unmarshal` into a Go `int` variable (64-bit): the number must have
an integral value fitting in a signed 64-bit integer, otherwise a type error
is reported.  (Number literals are modelled by their exact value.) -/
def unmarshalInt (j : Json) : Except JsonErr ℤ :=
  match j with
  | .num q =>
    if q.den = 1 ∧ -(2 ^ 63) ≤ q.num ∧ q.num ≤ 2 ^ 63 - 1 then .ok q.num
    else .error .typeErr
  | .null => .ok 0
  | _ => .error .typeErr

/-! ### Decimal rendering: `fmt.Sprintf "%f"` -/

/-- The character for a decimal digit `d < 10`. -/
def digitChar (d : ℕ) : Char := Char.ofNat (48 + d)

/-- The numeric value of a decimal digit character. -/
def digitVal (c : Char) : ℕ := c.toNat - 48

/-- Whether a character is an ASCII decimal digit. -/
def isDigitCh (c : Char) : Bool := decide (48 ≤ c.toNat ∧ c.toNat ≤ 57)

/-- Little-endian decimal digits of `n`, with explicit fuel (the fuel is
always instantiated with `n` itself, which bounds the number of digits). -/
def digitsLEAux : ℕ → ℕ → List Char
  | 0, _ => []
  | fuel + 1, n => if n = 0 then [] else digitChar (n % 10) :: digitsLEAux fuel (n / 10)

/-- Decimal representation of a natural number, most significant digit
first (`strconv` integer formatting). -/
def natRepr (n : ℕ) : List Char := if n = 0 then ['0'] else (digitsLEAux n n).reverse

/-- A fractional part `f < 10^6` rendered as exactly six decimal digits,
with leading zeros. -/
def frac6 (f : ℕ) : List Char :=
  List.replicate (6 - (natRepr f).length) '0' ++ natRepr f

/-- An unsigned fixed-point decimal numeral: integer part `a`, a dot, and a
six-digit fraction `f`. -/
def tok (a f : ℕ) : List Char := natRepr a ++ '.' :: frac6 f

/-- `fmt.Sprintf("%f", x)`: sign, integer part, a dot and exactly six
fraction digits, the magnitude being rounded to the nearest multiple of
`10^-6`.  Rounding of exact decimal ties is immaterial: no IEEE-754 double is
an exact tie at six decimals (such a tie would need powers of five in the
denominator), so half-up rounding agrees with Go on every double. -/
def fmtF (q : ℚ) : List Char :=
  let n : ℕ := (⌊|q| * 1000000 + 1 / 2⌋).toNat
  (if q < 0 then ['-'] else []) ++ tok (n / 1000000) (n % 1000000)

/-- The measure table of `responseTime.UnmarshalJSON`; a Go map lookup of a
missing key yields the zero value `""`. -/
def timeUnits (m : String) : String :=
  if m = "milliseconds" then "ms"
  else if m = "seconds" then "s"
  else if m = "minutes" then "m"
  else ""

/-! ### `time.ParseDuration` -/

/-- Errors of `time.ParseDuration`.  The Go function reports them as strings
beginning with `"time: invalid duration"`, `"time: missing unit in
duration"` and `"time: unknown unit ... in duration"`; since the quoted
input produced by this package consists only of digits, a dot, an optional
sign and unit letters, the substring test in `response.go` recognizes
exactly the `missingUnit` case, so the errors are modelled structurally. -/
inductive DurErr where
  | invalid
  | missingUnit
  | unknownUnit
deriving DecidableEq

/-- `leadingInt`: consume leading decimal digits accumulating their value,
failing (returning `none`) on overflow past `2^63`, as in Go. -/
def leadingIntAux (x : ℕ) : List Char → Option (ℕ × List Char)
  | [] => some (x, [])
  | c :: rest =>
    if isDigitCh c then
      if x > 2 ^ 63 / 10 then none
      else
        let x' := x * 10 + digitVal c
        if x' > 2 ^ 63 then none
        else leadingIntAux x' rest
    else some (x, c :: rest)

/-- `leadingInt` starting from zero. -/
def leadingInt (s : List Char) : Option (ℕ × List Char) := leadingIntAux 0 s

/-- `leadingFraction`: consume leading decimal digits as a fraction value
together with its scale; once the value would overflow, further digits are
consumed but ignored. -/
def leadingFractionAux (x scale : ℕ) (overflow : Bool) : List Char → ℕ × ℕ × List Char
  | [] => (x, scale, [])
  | c :: rest =>
    if isDigitCh c then
      if overflow then leadingFractionAux x scale true rest
      else if x > (2 ^ 63 - 1) / 10 then leadingFractionAux x scale true rest
      else
        let y := x * 10 + digitVal c
        if y > 2 ^ 63 then leadingFractionAux x scale true rest
        else leadingFractionAux y (scale * 10) false rest
    else (x, scale, c :: rest)

/-- The unit table of `time.ParseDuration`, in nanoseconds. -/
def unitMap (u : List Char) : Option ℕ :=
  if u = ['n', 's'] then some 1
  else if u = ['u', 's'] then some 1000
  else if u = ['µ', 's'] then some 1000
  else if u = ['μ', 's'] then some 1000
  else if u = ['m', 's'] then some 1000000
  else if u = ['s'] then some 1000000000
  else if u = ['m'] then some 60000000000
  else if u = ['h'] then some 3600000000000
  else none

/-- Length of the unit token: the number of leading characters that are
neither a digit nor a dot. -/
def unitLen : List Char → ℕ
  | [] => 0
  | c :: rest => if c = '.' ∨ isDigitCh c then 0 else unitLen rest + 1

/-- The unit-consuming tail of a `ParseDuration` loop iteration, after the
number `v + f/scale` has been read and `s2` is the input left over.  The
fraction contribution `uint64(float64(f) * (float64(unit) / scale))` is
modelled as `f * unit / scale` with natural division: for every string this
package feeds to `ParseDuration` the fraction has exactly six digits and the
unit is `ms`, `s` or `m`, for which the Go floating-point computation is
exact integer arithmetic. -/
def parseIterUnit (d v f scale : ℕ) (s2 : List Char) : Except DurErr (ℕ × List Char) :=
  let i := unitLen s2
  if i = 0 then .error .missingUnit
  else
    match unitMap (s2.take i) with
    | none => .error .unknownUnit
    | some unit =>
      if v > 2 ^ 63 / unit then .error .invalid
      else
        let v1 := v * unit
        let v2 := if 0 < f then v1 + f * unit / scale else v1
        if 0 < f ∧ 2 ^ 63 < v2 then .error .invalid
        else if 2 ^ 63 < d + v2 then .error .invalid
        else .ok (d + v2, s2.drop i)

/-- One iteration of the `ParseDuration` main loop: parse
`[0-9]*(\.[0-9]*)?unit`, add its value in nanoseconds to `d` and return the
remaining input. -/
def parseIter (d : ℕ) (s : List Char) : Except DurErr (ℕ × List Char) :=
  match s with
  | [] => .error .invalid
  | c :: rest =>
    if ¬(c = '.' ∨ isDigitCh c) then .error .invalid
    else
      match leadingInt (c :: rest) with
      | none => .error .invalid
      | some (v, s1) =>
        let pre : Bool := decide (s1.length ≠ (c :: rest).length)
        let step : ℕ × ℕ × List Char × Bool :=
          match s1 with
          | '.' :: t =>
            let fs := leadingFractionAux 0 1 false t
            (fs.1, fs.2.1, fs.2.2, decide (fs.2.2.length ≠ t.length))
          | _ => (0, 1, s1, false)
        if pre = false ∧ step.2.2.2 = false then .error .invalid
        else parseIterUnit d v step.1 step.2.1 step.2.2.1

/-- The `ParseDuration` main loop; each iteration consumes at least one
character, so fuel `s.length + 1` never runs out. -/
def parseDurationLoop (fuel d : ℕ) (s : List Char) : Except DurErr ℕ :=
  match fuel with
  | 0 => .error .invalid
  | fuel + 1 =>
    match s with
    | [] => .ok d
    | c :: rest =>
      match parseIter d (c :: rest) with
      | .error e => .error e
      | .ok (d', s') => parseDurationLoop fuel d' s'

/-- Consume an optional leading sign, as `ParseDuration` does. -/
def cutSign (l : List Char) : Bool × List Char :=
  match l with
  | [] => (false, [])
  | c :: rest =>
    if c = '-' then (true, rest)
    else if c = '+' then (false, rest)
    else (false, c :: rest)

/-- `time.ParseDuration`: the result is the signed number of nanoseconds
(a Go `time.Duration`, i.e. an `int64`; all values produced lie in its
range, `-(2^63)` being reached through Go's wrapping negation of `2^63`). -/
def parseDuration (s : String) : Except DurErr ℤ :=
  let p := cutSign s.data
  let neg := p.1
  let s1 := p.2
  if s1 = ['0'] then .ok 0
  else if s1 = [] then .error .invalid
  else
    match parseDurationLoop (s1.length + 1) 0 s1 with
    | .error e => .error e
    | .ok d =>
      if neg then .ok (-(d : ℤ))
      else if (2 ^ 63 - 1 : ℕ) < d then .error .invalid
      else .ok (d : ℤ)

/-! ### `net/url.Parse` -/

/-- Errors of the `net/url` parser modelled below. -/
inductive UrlErr where
  | missingScheme
  | controlChar
  | colonInFirstSegment
  | invalidEscape
  | invalidPort
  | missingCloseBracket
  | invalidUserinfo
deriving DecidableEq

/-- The fields of a Go `url.URL` relevant to these decoders (the
`User` field is modelled as the raw userinfo string; `RawPath` and zone
handling of IPv6 literals are omitted as no claim depends on them). -/
structure URL where
  scheme : String
  opaq : String
  user : String
  host : String
  path : String
  rawQuery : String
  forceQuery : Bool
  omitHost : Bool
  fragment : String
deriving DecidableEq

/-- The zero `url.URL` value. -/
def URL.zero : URL := URL.mk "" "" "" "" "" "" false false ""

/-- Whether a character is an ASCII letter. -/
def isAlphaCh (c : Char) : Bool :=
  decide ((65 ≤ c.toNat ∧ c.toNat ≤ 90) ∨ (97 ≤ c.toNat ∧ c.toNat ≤ 122))

/-- Whether a byte is a control character (`stringContainsCTLByte`). -/
def isCTL (c : Char) : Bool := decide (c.toNat < 32 ∨ c.toNat = 127)

/-- Whether a character is an ASCII hexadecimal digit. -/
def isHexCh (c : Char) : Bool :=
  decide ((48 ≤ c.toNat ∧ c.toNat ≤ 57) ∨ (65 ≤ c.toNat ∧ c.toNat ≤ 70) ∨
    (97 ≤ c.toNat ∧ c.toNat ≤ 102))

/-- Numeric value of a hexadecimal digit character. -/
def hexVal (c : Char) : ℕ :=
  if 48 ≤ c.toNat ∧ c.toNat ≤ 57 then c.toNat - 48
  else if 65 ≤ c.toNat ∧ c.toNat ≤ 70 then c.toNat - 55
  else c.toNat - 87

/-- Percent-decoding (`unescape`): a `%` must be followed by two hex
digits.  (Byte-versus-rune subtleties of multi-byte UTF-8 are below the
abstraction level of this model; all claims use ASCII inputs.) -/
def unescape : List Char → Except UrlErr (List Char)
  | [] => .ok []
  | '%' :: a :: b :: rest =>
    if isHexCh a ∧ isHexCh b then
      match unescape rest with
      | .ok r => .ok (Char.ofNat (hexVal a * 16 + hexVal b) :: r)
      | .error e => .error e
    else .error .invalidEscape
  | '%' :: _ => .error .invalidEscape
  | c :: rest =>
    match unescape rest with
    | .ok r => .ok (c :: r)
    | .error e => .error e

/-- `getScheme`: scan for `[a-zA-Z][a-zA-Z0-9+-.]*:`; `first` records
whether we are at index zero.  Returns the scheme (without the colon) and
the remainder, or the whole input with an empty scheme when no scheme is
present. -/
def getSchemeAux (orig acc : List Char) (first : Bool) :
    List Char → Except UrlErr (List Char × List Char)
  | [] => .ok ([], orig)
  | c :: rest =>
    if isAlphaCh c then getSchemeAux orig (acc ++ [c]) false rest
    else if isDigitCh c ∨ c = '+' ∨ c = '-' ∨ c = '.' then
      if first then .ok ([], orig) else getSchemeAux orig (acc ++ [c]) false rest
    else if c = ':' then
      if first then .error .missingScheme else .ok (acc, rest)
    else .ok ([], orig)

/-- `getScheme` over the whole raw URL. -/
def getScheme (rawURL : List Char) : Except UrlErr (List Char × List Char) :=
  getSchemeAux rawURL [] true rawURL

/-- `strings.Cut` at the first occurrence of a character: the part before,
the part after, and whether the character occurred. -/
def cutAtChar (c : Char) : List Char → List Char × List Char × Bool
  | [] => ([], [], false)
  | x :: xs =>
    if x = c then ([], xs, true)
    else
      let r := cutAtChar c xs
      (x :: r.1, r.2.1, r.2.2)

/-- Split at the last occurrence of a character (dropping it), as
`strings.LastIndex` based splitting does; `none` when absent. -/
def cutLast (c : Char) : List Char → Option (List Char × List Char)
  | [] => none
  | x :: xs =>
    match cutLast c xs with
    | some r => some (x :: r.1, r.2)
    | none => if x = c then some ([], xs) else none

/-- `validOptionalPort`: empty, or a colon followed by digits only. -/
def validOptionalPort : List Char → Bool
  | [] => true
  | ':' :: rest => rest.all isDigitCh
  | _ => false

/-- `parseHost` (without IPv6 zone handling): check the optional port,
then percent-decode the host. -/
def parseHost (host : List Char) : Except UrlErr (List Char) :=
  match host with
  | '[' :: _ =>
    match cutLast ']' host with
    | none => .error .missingCloseBracket
    | some r =>
      if validOptionalPort r.2 then unescape host
      else .error .invalidPort
  | _ =>
    match cutLast ':' host with
    | some r =>
      if validOptionalPort (':' :: r.2) then unescape host
      else .error .invalidPort
    | none => unescape host

/-- `validUserinfo`: the characters RFC 3986 allows in userinfo
(the apostrophe is the character of code 39). -/
def isUserinfoChar (c : Char) : Bool :=
  isAlphaCh c || isDigitCh c ||
    (c ∈ ['-', '.', '_', ':', '~', '!', '$', '&', '(', ')', '*', '+', ',',
      ';', '=', '%', '@'] : Bool) || decide (c.toNat = 39)

/-- `parseAuthority`: split the userinfo at the last `@`, validate it, and
parse the host.  Returns the (raw) userinfo and the host. -/
def parseAuthority (authority : List Char) :
    Except UrlErr (List Char × List Char) :=
  match cutLast '@' authority with
  | none =>
    match parseHost authority with
    | .ok h => .ok ([], h)
    | .error e => .error e
  | some r =>
    match parseHost r.2 with
    | .ok h =>
      if r.1.all isUserinfoChar then .ok (r.1, h)
      else .error .invalidUserinfo
    | .error e => .error e

/-- The body of `net/url`'s `parse(rawURL, viaRequest=false)` after the
fragment has been cut off. -/
def urlParseInner (rawURL : List Char) : Except UrlErr URL :=
  if rawURL.any isCTL then .error .controlChar
  else if rawURL = ['*'] then .ok (URL.mk "" "" "" "" "*" "" false false "")
  else
    match getScheme rawURL with
    | .error e => .error e
    | .ok (schemeRaw, rest0) =>
      let scheme := (asciiLower (String.mk schemeRaw)).data
      let q :=
        if rest0.getLast? = some '?' ∧ ¬ rest0.dropLast.contains '?' then
          (rest0.dropLast, ([] : List Char), true)
        else
          let r := cutAtChar '?' rest0
          (r.1, r.2.1, false)
      let rest1 := q.1
      let rawQuery := q.2.1
      let forceQuery := q.2.2
      if rest1.head? ≠ some '/' then
        if scheme ≠ [] then
          .ok (URL.mk (String.mk scheme) (String.mk rest1) "" "" "" (String.mk rawQuery)
            forceQuery false "")
        else
          let seg := (cutAtChar '/' rest1).1
          if seg.contains ':' then .error .colonInFirstSegment
          else
            match unescape rest1 with
            | .error e => .error e
            | .ok p =>
              .ok (URL.mk (String.mk scheme) "" "" "" (String.mk p) (String.mk rawQuery)
                forceQuery false "")
      else
        if (scheme ≠ [] ∨ ¬ ['/', '/', '/'].isPrefixOf rest1) ∧
            ['/', '/'].isPrefixOf rest1 then
          let authRest :=
            let a := rest1.drop 2
            let r := cutAtChar '/' a
            if r.2.2 then (r.1, '/' :: r.2.1) else (a, ([] : List Char))
          match parseAuthority authRest.1 with
          | .error e => .error e
          | .ok uh =>
            match unescape authRest.2 with
            | .error e => .error e
            | .ok p =>
              .ok (URL.mk (String.mk scheme) "" (String.mk uh.1) (String.mk uh.2)
                (String.mk p) (String.mk rawQuery) forceQuery false "")
        else
          let omitH := scheme ≠ [] ∧ rest1.head? = some '/'
          match unescape rest1 with
          | .error e => .error e
          | .ok p =>
            .ok (URL.mk (String.mk scheme) "" "" "" (String.mk p) (String.mk rawQuery)
              forceQuery (decide omitH) "")

/-- `url.Parse`: cut off the fragment, parse the rest, then set the
(percent-decoded) fragment if one was present. -/
def urlParse (s : String) : Except UrlErr URL :=
  let fr := cutAtChar '#' s.data
  match urlParseInner fr.1 with
  | .error e => .error e
  | .ok u =>
    if fr.2.2 = false then .ok u
    else
      match unescape fr.2.1 with
      | .error e => .error e
      | .ok f =>
        .ok (URL.mk u.scheme u.opaq u.user u.host u.path u.rawQuery
          u.forceQuery u.omitHost (String.mk f))

/-! ### The three decoders -/

/-- The error values a decoder invocation can surface to its caller:
`encoding/json` shape errors, raw `time.ParseDuration` errors, `net/url`
errors, and the two sentinel errors of `response.go`
(`errInvalidTimeUnit` and `errInvalidBool`). -/
inductive GoErr where
  | json (e : JsonErr)
  | dur (e : DurErr)
  | url (e : UrlErr)
  | invalidTimeUnit
  | invalidBool
deriving DecidableEq

/-- `responseTime.UnmarshalJSON` from `response.go`.  The receiver `*r`
(a `time.Duration`, modelled as `ℤ`) is passed in and the new receiver value
is returned together with the returned error, if any.  When
`time.ParseDuration` fails with the missing-unit error the function returns
`errInvalidTimeUnit` before assigning the receiver; on any other parse error
the receiver is first overwritten with the zero duration and the raw error
is returned. -/
def responseTime.unmarshalJSON (r : ℤ) (data : Json) : ℤ × Option GoErr :=
  match unmarshalTimeFields data with
  | .error e => (r, some (.json e))
  | .ok v =>
    match parseDuration (String.mk (fmtF v.time ++ (timeUnits v.measure).data)) with
    | .error .missingUnit => (r, some .invalidTimeUnit)
    | .error e => (0, some (.dur e))
    | .ok d => (d, none)

/-- `responseURL.UnmarshalJSON` from `response.go`: decode a JSON string,
parse it with `url.Parse`, and only on success overwrite the receiver with
the parsed URL. -/
def responseURL.unmarshalJSON (r : URL) (data : Json) : URL × Option GoErr :=
  match unmarshalString data with
  | .error e => (r, some (.json e))
  | .ok s =>
    match urlParse s with
    | .error e => (r, some (.url e))
    | .ok u => (u, none)

/-- `responseBool.UnmarshalJSON` from `response.go`. -/
def responseBool.unmarshalJSON (r : Bool) (data : Json) : Bool × Option GoErr :=
  match unmarshalInt data with
  | .error e => (r, some (.json e))
  | .ok v =>
    if v = 0 then (false, none)
    else if v = 1 then (true, none)
    else (r, some .invalidBool)

/-! ### Lemmas about decimal digit strings -/

/-- Value of a most-significant-digit-first digit string, accumulated on
top of `x` (the accumulator of `leadingInt`). -/
def valFrom (x : ℕ) (ds : List Char) : ℕ :=
  ds.foldl (fun a c => a * 10 + digitVal c) x

/-- Whether the first character, if any, is not a digit (the condition under
which the digit scanners stop exactly at a list boundary). -/
def headNotDigit : List Char → Bool
  | [] => true
  | c :: _ => !isDigitCh c

/-- Nanoseconds-per-unit divided by `10^6`: the factor by which `time·10^6`
is multiplied to obtain the decoded duration in nanoseconds. -/
def unitScale (m : String) : ℕ :=
  if m = "milliseconds" then 1
  else if m = "seconds" then 1000
  else if m = "minutes" then 60000
  else 0

/-- The true magnitude, in nanoseconds, of the unit a measure names. -/
def unitNanos (m : String) : ℕ :=
  if m = "milliseconds" then 1000000
  else if m = "seconds" then 1000000000
  else if m = "minutes" then 60000000000
  else 0

theorem valFrom_nil (x : ℕ) : valFrom x [] = x := rfl

theorem valFrom_cons (x : ℕ) (c : Char) (ds : List Char) :
    valFrom x (c :: ds) = valFrom (x * 10 + digitVal c) ds := rfl

theorem valFrom_append (x : ℕ) (ds es : List Char) :
    valFrom x (ds ++ es) = valFrom (valFrom x ds) es :=
  List.foldl_append ..

theorem le_valFrom (x : ℕ) (ds : List Char) : x ≤ valFrom x ds := by
  induction ds generalizing x with
  | nil => exact le_rfl
  | cons c ds ih =>
    rw [valFrom_cons]
    exact le_trans (by omega) (ih (x * 10 + digitVal c))

theorem isDigitCh_digitChar {d : ℕ} (h : d < 10) : isDigitCh (digitChar d) = true := by
  interval_cases d <;> decide

theorem digitVal_digitChar {d : ℕ} (h : d < 10) : digitVal (digitChar d) = d := by
  interval_cases d <;> decide

theorem digitsLEAux_all (fuel : ℕ) :
    ∀ n, ∀ c ∈ digitsLEAux fuel n, isDigitCh c = true := by
  induction fuel with
  | zero => intro n c hc; simp [digitsLEAux] at hc
  | succ fuel ih =>
    intro n c hc
    by_cases h : n = 0
    · simp [digitsLEAux, h] at hc
    · simp only [digitsLEAux, h, if_false, List.mem_cons] at hc
      rcases hc with h1 | h2
      · exact h1 ▸ isDigitCh_digitChar (Nat.mod_lt _ (by norm_num))
      · exact ih _ c h2

theorem valFrom_digitsLE (fuel : ℕ) :
    ∀ n, n ≤ fuel → valFrom 0 ((digitsLEAux fuel n).reverse) = n := by
  induction fuel with
  | zero => intro n h; interval_cases n; rfl
  | succ fuel ih =>
    intro n h
    by_cases h0 : n = 0
    · simp [digitsLEAux, h0, valFrom]
    · have hdiv : n / 10 ≤ fuel := by omega
      simp only [digitsLEAux, h0, if_false, List.reverse_cons, valFrom_append,
        ih (n / 10) hdiv, valFrom_cons, valFrom_nil]
      rw [digitVal_digitChar (Nat.mod_lt _ (by norm_num))]
      omega

theorem natRepr_ne_nil (n : ℕ) : natRepr n ≠ [] := by
  by_cases h : n = 0
  · simp [natRepr, h]
  · obtain ⟨m, rfl⟩ : ∃ m, n = m + 1 := ⟨n - 1, by omega⟩
    simp [natRepr, digitsLEAux]

theorem natRepr_val (n : ℕ) : valFrom 0 (natRepr n) = n := by
  by_cases h : n = 0
  · subst h; decide
  · simp only [natRepr, h, if_false]
    exact valFrom_digitsLE n n le_rfl

theorem natRepr_all (n : ℕ) : ∀ c ∈ natRepr n, isDigitCh c = true := by
  by_cases h : n = 0
  · subst h; decide
  · intro c hc
    simp only [natRepr, h, if_false, List.mem_reverse] at hc
    exact digitsLEAux_all n n c hc

theorem digitsLEAux_length (fuel : ℕ) :
    ∀ n k, n < 10 ^ k → (digitsLEAux fuel n).length ≤ k := by
  induction fuel with
  | zero => intro n k _; simp [digitsLEAux]
  | succ fuel ih =>
    intro n k hn
    by_cases h0 : n = 0
    · simp [digitsLEAux, h0]
    · cases k with
      | zero => omega
      | succ k =>
        have hdiv : n / 10 < 10 ^ k := by
          rw [Nat.div_lt_iff_lt_mul (by norm_num)]
          calc n < 10 ^ (k + 1) := hn
          _ = 10 ^ k * 10 := by ring
        simp only [digitsLEAux, h0, if_false, List.length_cons]
        exact Nat.succ_le_succ (ih (n / 10) k hdiv)

theorem natRepr_length_le {n k : ℕ} (h1 : n < 10 ^ k) (h2 : 1 ≤ k) :
    (natRepr n).length ≤ k := by
  by_cases h : n = 0
  · simpa [natRepr, h] using h2
  · simp only [natRepr, h, if_false, List.length_reverse]
    exact digitsLEAux_length n n k h1

theorem frac6_length {f : ℕ} (hf : f < 10 ^ 6) : (frac6 f).length = 6 := by
  have := natRepr_length_le hf (by norm_num)
  simp only [frac6, List.length_append, List.length_replicate]
  omega

theorem frac6_all (f : ℕ) : ∀ c ∈ frac6 f, isDigitCh c = true := by
  intro c hc
  simp only [frac6, List.mem_append, List.mem_replicate] at hc
  rcases hc with h1 | h2
  · rw [h1.2]; decide
  · exact natRepr_all f c h2

theorem valFrom_replicate_zero (j : ℕ) : valFrom 0 (List.replicate j '0') = 0 := by
  induction j with
  | zero => rfl
  | succ j ih => simpa [List.replicate_succ, valFrom_cons] using ih

theorem frac6_val (f : ℕ) : valFrom 0 (frac6 f) = f := by
  simp only [frac6, valFrom_append, valFrom_replicate_zero, natRepr_val]

/-! ### Behaviour of the duration scanner on well-formed numerals -/

theorem leadingIntAux_spec {ds rest : List Char} {x : ℕ}
    (hds : ∀ c ∈ ds, isDigitCh c = true) (hrest : headNotDigit rest = true)
    (hval : valFrom x ds ≤ 2 ^ 63) :
    leadingIntAux x (ds ++ rest) = some (valFrom x ds, rest) := by
  induction ds generalizing x with
  | nil =>
    cases rest with
    | nil => rfl
    | cons c r =>
      have hc : isDigitCh c = false := by
        simpa [headNotDigit] using hrest
      simp [leadingIntAux, hc, valFrom_nil]
  | cons c ds ih =>
    have hc : isDigitCh c = true := hds c (by simp)
    rw [valFrom_cons] at hval
    have h10 : x * 10 + digitVal c ≤ 2 ^ 63 := le_trans (le_valFrom _ _) hval
    have hx : ¬ x > 2 ^ 63 / 10 := by omega
    have hx' : ¬ x * 10 + digitVal c > 2 ^ 63 := by omega
    rw [List.cons_append, valFrom_cons]
    simp only [leadingIntAux, hc, if_true, if_neg hx, if_neg hx']
    exact ih (fun c hc => hds c (List.mem_cons_of_mem _ hc)) hval

theorem leadingFractionAux_spec {ds rest : List Char} {x scale : ℕ}
    (hds : ∀ c ∈ ds, isDigitCh c = true) (hrest : headNotDigit rest = true)
    (hval : valFrom x ds ≤ (2 ^ 63 - 1) / 10) :
    leadingFractionAux x scale false (ds ++ rest) =
      (valFrom x ds, scale * 10 ^ ds.length, rest) := by
  induction ds generalizing x scale with
  | nil =>
    cases rest with
    | nil => simp [leadingFractionAux, valFrom_nil]
    | cons c r =>
      have hc : isDigitCh c = false := by
        simpa [headNotDigit] using hrest
      simp [leadingFractionAux, hc, valFrom_nil]
  | cons c ds ih =>
    have hc : isDigitCh c = true := hds c (by simp)
    rw [valFrom_cons] at hval
    have h10 : x * 10 + digitVal c ≤ (2 ^ 63 - 1) / 10 := le_trans (le_valFrom _ _) hval
    have hx : ¬ x > (2 ^ 63 - 1) / 10 := by omega
    have hx' : ¬ x * 10 + digitVal c > 2 ^ 63 := by omega
    rw [List.cons_append, valFrom_cons]
    simp only [leadingFractionAux, hc, if_true, Bool.false_eq_true, if_false,
      if_neg hx, if_neg hx']
    rw [ih (fun c hc => hds c (List.mem_cons_of_mem _ hc)) hval]
    rw [List.length_cons, pow_succ]
    ring_nf

/-- On a numeral `tok a f` followed by a non-digit remainder, one loop
iteration of `ParseDuration` reads the number `a + f/10^6` and hands the
remainder to the unit-consuming tail. -/
theorem parseIter_tok (d a f : ℕ) (u : List Char) (ha : a ≤ 2 ^ 63) (hf : f < 10 ^ 6)
    (hu : headNotDigit u = true) :
    parseIter d (tok a f ++ u) = parseIterUnit d a f 1000000 u := by
  rcases hR : natRepr a with _ | ⟨c, cs⟩
  · exact absurd hR (natRepr_ne_nil a)
  have hc : isDigitCh c = true := natRepr_all a c (by rw [hR]; simp)
  have hall : ∀ ch ∈ c :: cs, isDigitCh ch = true := by
    rw [← hR]; exact natRepr_all a
  have hval : valFrom 0 (c :: cs) = a := by rw [← hR]; exact natRepr_val a
  have hlist : tok a f ++ u = c :: (cs ++ ('.' :: (frac6 f ++ u))) := by
    simp [tok, hR]
  have hdot : headNotDigit ('.' :: (frac6 f ++ u)) = true := rfl
  have hLI : leadingIntAux 0 (c :: (cs ++ ('.' :: (frac6 f ++ u)))) =
      some (a, '.' :: (frac6 f ++ u)) := by
    rw [← List.cons_append]
    rw [leadingIntAux_spec hall hdot (by rw [hval]; exact ha), hval]
  have hLF : leadingFractionAux 0 1 false (frac6 f ++ u) = (f, 1000000, u) := by
    rw [leadingFractionAux_spec (frac6_all f) hu (by rw [frac6_val]; omega)]
    rw [frac6_val, frac6_length hf]
    norm_num
  have hpost : (u.length ≠ (frac6 f ++ u).length) := by
    simp [frac6_length hf]
  rw [hlist]
  simp only [parseIter, leadingInt]
  rw [if_neg (by simp [hc])]
  simp only [hLI, hLF, decide_eq_true hpost]
  simp

/-- Running the main loop when a single iteration consumes the whole input
successfully. -/
theorem parseDurationLoop_ok {fuel d K : ℕ} {s : List Char} (hfuel : 2 ≤ fuel)
    (hs : s ≠ []) (h : parseIter d s = .ok (K, [])) :
    parseDurationLoop fuel d s = .ok K := by
  obtain ⟨f', rfl⟩ : ∃ f', fuel = f' + 2 := ⟨fuel - 2, by omega⟩
  cases s with
  | nil => exact absurd rfl hs
  | cons c r => simp [parseDurationLoop, h]

/-- Running the main loop when the first iteration fails. -/
theorem parseDurationLoop_error {fuel d : ℕ} {e : DurErr} {s : List Char} (hfuel : 1 ≤ fuel)
    (hs : s ≠ []) (h : parseIter d s = .error e) :
    parseDurationLoop fuel d s = .error e := by
  obtain ⟨f', rfl⟩ : ∃ f', fuel = f' + 1 := ⟨fuel - 1, by omega⟩
  cases s with
  | nil => exact absurd rfl hs
  | cons c r => simp [parseDurationLoop, h]

theorem cutSign_digit {c : Char} (l : List Char) (hc : isDigitCh c = true) :
    cutSign (c :: l) = (false, c :: l) := by
  have h1 : c ≠ '-' := by rintro rfl; exact absurd hc (by decide)
  have h2 : c ≠ '+' := by rintro rfl; exact absurd hc (by decide)
  simp [cutSign, h1, h2]

theorem tok_length {a f : ℕ} (hf : f < 10 ^ 6) :
    (tok a f).length = (natRepr a).length + 7 := by
  simp [tok, frac6_length hf]

theorem tok_append_ne_list {a f : ℕ} (u l : List Char) (hf : f < 10 ^ 6)
    (hl : l.length < 8) : tok a f ++ u ≠ l := by
  intro h
  apply_fun List.length at h
  rw [List.length_append, tok_length hf] at h
  have := List.length_pos.mpr (natRepr_ne_nil a)
  omega

/-- `ParseDuration` on an unsigned numeral-with-unit whose single iteration
succeeds and consumes everything. -/
theorem parseDuration_tok_ok {a f K : ℕ} {u : List Char}
    (ha : a ≤ 2 ^ 63) (hf : f < 10 ^ 6) (hu : headNotDigit u = true)
    (hIter : parseIterUnit 0 a f 1000000 u = .ok (K, []))
    (hK : K ≤ 2 ^ 63 - 1) :
    parseDuration (String.mk (tok a f ++ u)) = .ok (K : ℤ) := by
  rcases hR : natRepr a with _ | ⟨c, cs⟩
  · exact absurd hR (natRepr_ne_nil a)
  have hc : isDigitCh c = true := natRepr_all a c (by rw [hR]; simp)
  have hcons : tok a f ++ u = c :: (cs ++ ('.' :: (frac6 f ++ u))) := by
    simp [tok, hR]
  have hsign : cutSign (tok a f ++ u) = (false, tok a f ++ u) := by
    rw [hcons, cutSign_digit _ hc, ← hcons]
  have hne0 : tok a f ++ u ≠ ['0'] := tok_append_ne_list u _ hf (by norm_num)
  have hnil : tok a f ++ u ≠ [] := tok_append_ne_list u _ hf (by norm_num)
  have hloop : parseDurationLoop ((tok a f ++ u).length + 1) 0 (tok a f ++ u) = .ok K := by
    refine parseDurationLoop_ok ?_ hnil ?_
    · have := List.length_pos.mpr hnil
      omega
    · rw [parseIter_tok 0 a f u ha hf hu, hIter]
  have hlt : ¬ (2 ^ 63 - 1 : ℕ) < K := by omega
  simp only [parseDuration, hsign, if_neg hne0, if_neg hnil, hloop]
  simp only [Bool.false_eq_true, if_false, if_neg hlt]

/-- `ParseDuration` on a minus sign followed by a numeral-with-unit whose
single iteration succeeds and consumes everything. -/
theorem parseDuration_negTok_ok {a f K : ℕ} {u : List Char}
    (ha : a ≤ 2 ^ 63) (hf : f < 10 ^ 6) (hu : headNotDigit u = true)
    (hIter : parseIterUnit 0 a f 1000000 u = .ok (K, [])) :
    parseDuration (String.mk ('-' :: (tok a f ++ u))) = .ok (-(K : ℤ)) := by
  have hsign : cutSign ('-' :: (tok a f ++ u)) = (true, tok a f ++ u) := by
    simp [cutSign]
  have hne0 : tok a f ++ u ≠ ['0'] := tok_append_ne_list u _ hf (by norm_num)
  have hnil : tok a f ++ u ≠ [] := tok_append_ne_list u _ hf (by norm_num)
  have hloop : parseDurationLoop ((tok a f ++ u).length + 1) 0 (tok a f ++ u) = .ok K := by
    refine parseDurationLoop_ok ?_ hnil ?_
    · have := List.length_pos.mpr hnil
      omega
    · rw [parseIter_tok 0 a f u ha hf hu, hIter]
  simp only [parseDuration, hsign, if_neg hne0, if_neg hnil, hloop]
  simp

/-- `ParseDuration` on a bare numeral (no unit suffix), with an optional
minus sign, fails with the missing-unit error whenever the integer part
does not overflow the digit scanner. -/
theorem parseDuration_sign_missing (sgn : List Char) (hs : sgn = [] ∨ sgn = ['-'])
    {a f : ℕ} (ha : a ≤ 2 ^ 63) (hf : f < 10 ^ 6) :
    parseDuration (String.mk (sgn ++ tok a f)) = .error .missingUnit := by
  have hIter : parseIter 0 (tok a f) = .error .missingUnit := by
    have h0 : tok a f = tok a f ++ [] := by simp
    rw [h0, parseIter_tok 0 a f [] ha hf rfl]
    rfl
  have hne0 : tok a f ≠ ['0'] := by
    have := tok_append_ne_list (a := a) [] ['0'] hf (by norm_num)
    simpa using this
  have hnil : tok a f ≠ [] := by
    have := tok_append_ne_list (a := a) [] [] hf (by norm_num)
    simpa using this
  have hloop : parseDurationLoop ((tok a f).length + 1) 0 (tok a f) = .error .missingUnit := by
    refine parseDurationLoop_error (by omega) hnil hIter
  rcases hR : natRepr a with _ | ⟨c, cs⟩
  · exact absurd hR (natRepr_ne_nil a)
  have hc : isDigitCh c = true := natRepr_all a c (by rw [hR]; simp)
  have hcons : tok a f = c :: (cs ++ ('.' :: frac6 f)) := by
    simp [tok, hR]
  rcases hs with rfl | rfl
  · have hsign : cutSign (tok a f) = (false, tok a f) := by
      rw [hcons, cutSign_digit _ hc, ← hcons]
    rw [List.nil_append]
    simp only [parseDuration, hsign, if_neg hne0, if_neg hnil, hloop]
  · have hsign : cutSign ('-' :: tok a f) = (true, tok a f) := by
      simp [cutSign]
    rw [show (['-'] : List Char) ++ tok a f = '-' :: tok a f from rfl]
    simp only [parseDuration, hsign, if_neg hne0, if_neg hnil, hloop]

/-- The unit-consuming tail on the formatted representation of `k·10^-6`
with a unit worth `u' * 10^6` nanoseconds: the result is exactly `k * u'`
nanoseconds, provided it does not overflow. -/
theorem parseIterUnit_units (k u' : ℕ) (u : List Char)
    (hlen : unitLen u = u.length) (hu0 : 0 < u.length) (hu' : 0 < u')
    (hmap : unitMap (u.take (unitLen u)) = some (u' * 1000000))
    (hb : k * u' ≤ 2 ^ 63) :
    parseIterUnit 0 (k / 1000000) (k % 1000000) 1000000 u = .ok (k * u', []) := by
  have hi0 : ¬ unitLen u = 0 := by omega
  have hdrop : u.drop (unitLen u) = [] := by rw [hlen]; simp
  have hpos : 0 < u' * 1000000 := by positivity
  have hdivle : k / 1000000 * (u' * 1000000) ≤ k * u' := by
    calc k / 1000000 * (u' * 1000000) = k / 1000000 * 1000000 * u' := by ring
    _ ≤ k * u' := Nat.mul_le_mul_right _ (Nat.div_mul_le_self k 1000000)
  have hvcheck : ¬ k / 1000000 > 2 ^ 63 / (u' * 1000000) := by
    rw [gt_iff_lt, not_lt, Nat.le_div_iff_mul_le hpos]
    exact le_trans hdivle hb
  have hfu : k % 1000000 * (u' * 1000000) / 1000000 = k % 1000000 * u' := by
    calc k % 1000000 * (u' * 1000000) / 1000000
        = k % 1000000 * u' * 1000000 / 1000000 := by ring_nf
    _ = k % 1000000 * u' := Nat.mul_div_cancel _ (by norm_num)
  have hsum : k / 1000000 * (u' * 1000000) + k % 1000000 * u' = k * u' := by
    calc k / 1000000 * (u' * 1000000) + k % 1000000 * u'
        = (1000000 * (k / 1000000) + k % 1000000) * u' := by ring
    _ = k * u' := by rw [Nat.div_add_mod]
  have hv2 : (if 0 < k % 1000000 then
      k / 1000000 * (u' * 1000000) + k % 1000000 * (u' * 1000000) / 1000000
      else k / 1000000 * (u' * 1000000)) = k * u' := by
    by_cases hf0 : 0 < k % 1000000
    · rw [if_pos hf0, hfu, hsum]
    · rw [if_neg hf0]
      have hz : k % 1000000 = 0 := by omega
      have := hsum
      rw [hz] at this
      simpa using this
  have hov : ¬ (2 ^ 63 : ℕ) < k * u' := not_lt.mpr hb
  simp only [parseIterUnit, if_neg hi0, hmap, if_neg hvcheck, hv2, hdrop]
  rw [if_neg (fun h => hov h.2), if_neg (by simpa using hov)]
  simp

/-! ### The formatted output of `Sprintf "%f"` on exact multiples of `10^-6` -/

theorem fmtF_div (k : ℕ) :
    fmtF ((k : ℚ) / 1000000) = tok (k / 1000000) (k % 1000000) := by
  have h0 : ¬ ((k : ℚ) / 1000000 < 0) := not_lt.mpr (by positivity)
  have habs : |(k : ℚ) / 1000000| = (k : ℚ) / 1000000 := abs_of_nonneg (by positivity)
  have hval : ((k : ℚ) / 1000000) * 1000000 = (k : ℚ) := by field_simp
  have hfloor : ⌊(k : ℚ) + 1 / 2⌋ = (k : ℤ) := by
    rw [Int.floor_eq_iff]
    constructor
    · push_cast; linarith
    · push_cast; linarith
  simp only [fmtF, habs, hval, hfloor, Int.toNat_natCast, if_neg h0, List.nil_append]

theorem fmtF_neg_div (k : ℕ) (hk : 0 < k) :
    fmtF (-((k : ℚ) / 1000000)) = '-' :: tok (k / 1000000) (k % 1000000) := by
  have hkq : (0 : ℚ) < (k : ℚ) := by exact_mod_cast hk
  have hpos : (0 : ℚ) < (k : ℚ) / 1000000 := by positivity
  have h0 : -((k : ℚ) / 1000000) < 0 := neg_neg_of_pos hpos
  have habs : |(-((k : ℚ) / 1000000))| = (k : ℚ) / 1000000 := by
    rw [abs_neg]; exact abs_of_nonneg (le_of_lt hpos)
  have hval : ((k : ℚ) / 1000000) * 1000000 = (k : ℚ) := by field_simp
  have hfloor : ⌊(k : ℚ) + 1 / 2⌋ = (k : ℤ) := by
    rw [Int.floor_eq_iff]
    constructor
    · push_cast; linarith
    · push_cast; linarith
  simp only [fmtF, habs, hval, hfloor, Int.toNat_natCast, if_pos h0, List.singleton_append]

/-! ### Glue facts about the duration decoder -/

/-- Decoding `{"time": q, "measure": m}` reads the two fields and then
follows the duration-parse outcome. -/
theorem responseTime_pair_parse (q : ℚ) (m : String) (r : ℤ) :
    responseTime.unmarshalJSON r (.obj [("time", .num q), ("measure", .str m)]) =
      match parseDuration (String.mk (fmtF q ++ (timeUnits m).data)) with
      | .error .missingUnit => (r, some .invalidTimeUnit)
      | .error e => (0, some (.dur e))
      | .ok d => (d, none) := rfl

/-! ### The claims -/

/-- C1 (amended): for every time value that is a nonnegative integer
multiple of `10^-6` and every measure in the recognized set, provided the
scaled duration fits in the 63-bit nanosecond range, decoding
`{"time": time, "measure": measure}` succeeds and yields a duration exactly
equal to `time` scaled by the true magnitude of the named unit.  (For
general nonnegative times the claim fails: `Sprintf "%f"` rounds the time
to six decimal places before the duration is parsed, and very large times
overflow the parser.) -/
theorem time_decode_scaled_exact (k : ℕ) (m : String) (r : ℤ)
    (hm : m = "milliseconds" ∨ m = "seconds" ∨ m = "minutes")
    (hb : k * unitScale m ≤ 2 ^ 63 - 1) :
    responseTime.unmarshalJSON r
      (.obj [("time", .num ((k : ℚ) / 1000000)), ("measure", .str m)]) =
      (((k * unitScale m : ℕ) : ℤ), none) ∧
    ((k * unitScale m : ℕ) : ℚ) = ((k : ℚ) / 1000000) * (unitNanos m : ℚ) := by
  have hf : k % 1000000 < 10 ^ 6 := Nat.mod_lt _ (by norm_num)
  rcases hm with rfl | rfl | rfl
  · have hsc : unitScale "milliseconds" = 1 := rfl
    rw [hsc] at hb ⊢
    have hk : k ≤ 2 ^ 63 - 1 := by simpa using hb
    have hIter := parseIterUnit_units k 1 ['m', 's'] (by decide) (by decide) (by decide)
      (by decide) (by omega)
    have ha : k / 1000000 ≤ 2 ^ 63 := le_trans (Nat.div_le_self _ _) (by omega)
    have hpd := parseDuration_tok_ok ha hf (by decide) hIter (by omega)
    rw [responseTime_pair_parse,
      show (timeUnits "milliseconds").data = ['m', 's'] from rfl, fmtF_div, hpd]
    refine ⟨rfl, ?_⟩
    rw [show unitNanos "milliseconds" = 1000000 from rfl]
    push_cast
    field_simp
  · have hsc : unitScale "seconds" = 1000 := rfl
    rw [hsc] at hb ⊢
    have hIter := parseIterUnit_units k 1000 ['s'] (by decide) (by decide) (by decide)
      (by decide) (le_trans hb (by norm_num))
    have hk : k ≤ 2 ^ 63 - 1 := le_trans (Nat.le_mul_of_pos_right k (by norm_num)) hb
    have ha : k / 1000000 ≤ 2 ^ 63 := le_trans (Nat.div_le_self _ _) (by omega)
    have hpd := parseDuration_tok_ok ha hf (by decide) hIter hb
    rw [responseTime_pair_parse,
      show (timeUnits "seconds").data = ['s'] from rfl, fmtF_div, hpd]
    refine ⟨rfl, ?_⟩
    rw [show unitNanos "seconds" = 1000000000 from rfl]
    push_cast
    field_simp
    ring
  · have hsc : unitScale "minutes" = 60000 := rfl
    rw [hsc] at hb ⊢
    have hIter := parseIterUnit_units k 60000 ['m'] (by decide) (by decide) (by decide)
      (by decide) (le_trans hb (by norm_num))
    have hk : k ≤ 2 ^ 63 - 1 := le_trans (Nat.le_mul_of_pos_right k (by norm_num)) hb
    have ha : k / 1000000 ≤ 2 ^ 63 := le_trans (Nat.div_le_self _ _) (by omega)
    have hpd := parseDuration_tok_ok ha hf (by decide) hIter hb
    rw [responseTime_pair_parse,
      show (timeUnits "minutes").data = ['m'] from rfl, fmtF_div, hpd]
    refine ⟨rfl, ?_⟩
    rw [show unitNanos "minutes" = 60000000000 from rfl]
    push_cast
    field_simp
    ring

/-- C1 counterexample: the time `2^-20` (an exact IEEE-754 double) with
measure `"seconds"` decodes successfully, but to 1000 nanoseconds — the
six-decimal formatting rounds `0.00000095367...` up to `0.000001` — which
is not exactly `2^-20` seconds scaled to nanoseconds. -/
theorem time_decode_scaled_exact_cex :
    responseTime.unmarshalJSON 0
      (.obj [("time", .num (1 / 2 ^ 20)), ("measure", .str "seconds")]) =
      ((1000 : ℤ), none) ∧
    ¬ (((1000 : ℤ) : ℚ) = (1 / 2 ^ 20 : ℚ) * (unitNanos "seconds" : ℚ)) := by
  constructor
  · with_unfolding_all decide
  · with_unfolding_all decide

/-- Witness for C1 (amended): `{"time": 2, "measure": "minutes"}` (the time
`2 = 2000000·10^-6`) decodes to 120 seconds' worth of nanoseconds. -/
theorem time_decode_scaled_exact_wit :
    responseTime.unmarshalJSON 0
      (.obj [("time", .num ((2000000 : ℚ) / 1000000)), ("measure", .str "minutes")]) =
      (((2000000 * unitScale "minutes" : ℕ) : ℤ), none) ∧
    ((2000000 * unitScale "minutes" : ℕ) : ℚ) =
      ((2000000 : ℚ) / 1000000) * (unitNanos "minutes" : ℚ) :=
  time_decode_scaled_exact 2000000 "minutes" 0 (Or.inr (Or.inr rfl)) (by decide)

/-- C2 (amended): decoding `{"time": t, "measure": m}` with `m` outside the
recognized set fails with the distinct `errInvalidTimeUnit`, provided the
formatted integer part of `|t|` does not overflow the duration scanner
(at most `2^63`); above that the raw parse error leaks through. -/
theorem time_decode_unknown_unit (q : ℚ) (m : String) (r : ℤ)
    (hm1 : m ≠ "milliseconds") (hm2 : m ≠ "seconds") (hm3 : m ≠ "minutes")
    (hb : (⌊|q| * 1000000 + 1 / 2⌋).toNat / 1000000 ≤ 2 ^ 63) :
    responseTime.unmarshalJSON r (.obj [("time", .num q), ("measure", .str m)]) =
      (r, some .invalidTimeUnit) := by
  rw [responseTime_pair_parse]
  have ht : timeUnits m = "" := by simp [timeUnits, hm1, hm2, hm3]
  rw [ht, show ("" : String).data = ([] : List Char) from rfl, List.append_nil]
  have hfmt : fmtF q = (if q < 0 then ['-'] else []) ++
      tok ((⌊|q| * 1000000 + 1 / 2⌋).toNat / 1000000)
        ((⌊|q| * 1000000 + 1 / 2⌋).toNat % 1000000) := rfl
  rw [hfmt]
  have hf2 : (⌊|q| * 1000000 + 1 / 2⌋).toNat % 1000000 < 10 ^ 6 := by omega
  by_cases hq : q < 0
  · rw [if_pos hq, parseDuration_sign_missing ['-'] (Or.inr rfl) hb hf2]
  · rw [if_neg hq, parseDuration_sign_missing [] (Or.inl rfl) hb hf2]

/-- C2 counterexample: with time `10^19` (an exact double) and the unknown
measure `"fortnights"`, the integer-part scan of the duration parser
overflows before the missing unit is noticed, so the raw
invalid-duration error is returned — not `errInvalidTimeUnit` — and the
receiver is zeroed. -/
theorem time_decode_unknown_unit_cex :
    responseTime.unmarshalJSON 7
      (.obj [("time", .num (10 ^ 19)), ("measure", .str "fortnights")]) =
      (0, some (.dur .invalid)) ∧
    GoErr.dur DurErr.invalid ≠ GoErr.invalidTimeUnit := by
  constructor
  · with_unfolding_all decide
  · decide

/-- Witness for C2 (amended): `{"time": 5, "measure": "fortnights"}` fails
with `errInvalidTimeUnit` and leaves the receiver untouched. -/
theorem time_decode_unknown_unit_wit :
    responseTime.unmarshalJSON 7
      (.obj [("time", .num 5), ("measure", .str "fortnights")]) =
      (7, some .invalidTimeUnit) :=
  time_decode_unknown_unit 5 "fortnights" 7 (by decide) (by decide) (by decide)
    (by with_unfolding_all decide)

/-- C3 (amended): the bool decoder maps the JSON integer `0` to `false` and
`1` to `true`; every other integer representable in the 64-bit `int` target
fails with `errInvalidBool`, while integers outside that range already fail
in the JSON layer with a shape error (not `errInvalidBool`). -/
theorem bool_decode_values (r : Bool) (z : ℤ) :
    responseBool.unmarshalJSON r (.num 0) = (false, none) ∧
    responseBool.unmarshalJSON r (.num 1) = (true, none) ∧
    (-(2 ^ 63) ≤ z → z ≤ 2 ^ 63 - 1 → z ≠ 0 → z ≠ 1 →
      responseBool.unmarshalJSON r (.num (z : ℚ)) = (r, some .invalidBool)) ∧
    ((z < -(2 ^ 63) ∨ 2 ^ 63 - 1 < z) →
      responseBool.unmarshalJSON r (.num (z : ℚ)) = (r, some (.json .typeErr))) := by
  have hden : ((z : ℚ)).den = 1 := Rat.den_intCast z
  have hnum : ((z : ℚ)).num = z := Rat.num_intCast z
  refine ⟨?_, ?_, ?_, ?_⟩
  · rfl
  · rfl
  · intro h1 h2 h3 h4
    have hint : unmarshalInt (.num (z : ℚ)) = .ok z := by
      simp only [unmarshalInt, hden, hnum]
      rw [if_pos ⟨trivial, h1, h2⟩]
    simp only [responseBool.unmarshalJSON, hint]
    rw [if_neg h3, if_neg h4]
  · intro h
    have hint : unmarshalInt (.num (z : ℚ)) = .error .typeErr := by
      simp only [unmarshalInt, hden, hnum]
      rw [if_neg (by rintro ⟨-, hh1, hh2⟩; rcases h with h | h <;> omega)]
    simp only [responseBool.unmarshalJSON, hint]

/-- C3 counterexample: the JSON integer `2^63` (exactly representable as a
double) is neither 0 nor 1, yet it fails with the JSON type error of the
`int` target, not with `errInvalidBool`. -/
theorem bool_decode_values_cex :
    responseBool.unmarshalJSON false (.num (2 ^ 63 : ℚ)) =
      (false, some (.json .typeErr)) ∧
    GoErr.json JsonErr.typeErr ≠ GoErr.invalidBool := by
  constructor
  · with_unfolding_all decide
  · decide

/-- Witness for C3 (amended): `2` fails with `errInvalidBool`, and `2^63`
fails with the JSON shape error. -/
theorem bool_decode_values_wit :
    responseBool.unmarshalJSON true (.num ((2 : ℤ) : ℚ)) = (true, some .invalidBool) ∧
    responseBool.unmarshalJSON true (.num ((2 ^ 63 : ℤ) : ℚ)) =
      (true, some (.json .typeErr)) :=
  ⟨(bool_decode_values true 2).2.2.1 (by decide) (by decide) (by decide) (by decide),
   (bool_decode_values true (2 ^ 63)).2.2.2 (Or.inr (by norm_num))⟩

/-- C4: for each of the three decoders, decoding a JSON array returns the
underlying JSON parser's shape error, never a value, and the receiver is
left unchanged; the decoders are total functions, so no panic is
possible. -/
theorem array_input_shape_error (elems : List Json) (rt : ℤ) (ru : URL) (rb : Bool) :
    responseTime.unmarshalJSON rt (.arr elems) = (rt, some (.json .typeErr)) ∧
    responseURL.unmarshalJSON ru (.arr elems) = (ru, some (.json .typeErr)) ∧
    responseBool.unmarshalJSON rb (.arr elems) = (rb, some (.json .typeErr)) :=
  ⟨rfl, rfl, rfl⟩

/-- C5: decoding the JSON string `"https://example.com/a?b=c"` succeeds with
scheme `https`, host `example.com`, path `/a` and query `b=c`, and
re-serializing those components recovers the original string exactly. -/
theorem url_roundtrip_example (r : URL) :
    responseURL.unmarshalJSON r (.str "https://example.com/a?b=c") =
      (URL.mk "https" "" "" "example.com" "/a" "b=c" false false "", none) ∧
    "https" ++ "://" ++ "example.com" ++ "/a" ++ "?" ++ "b=c" =
      "https://example.com/a?b=c" :=
  ⟨rfl, rfl⟩

/-- C6: decoding the empty JSON string succeeds (no error) and yields a URL
with empty scheme, empty host and empty path. -/
theorem url_empty_string_ok (r : URL) :
    responseURL.unmarshalJSON r (.str "") =
      (URL.mk "" "" "" "" "" "" false false "", none) ∧
    (URL.mk "" "" "" "" "" "" false false "").scheme = "" ∧
    (URL.mk "" "" "" "" "" "" false false "").host = "" ∧
    (URL.mk "" "" "" "" "" "" false false "").path = "" :=
  ⟨rfl, rfl, rfl, rfl⟩

/-- C7 (amended): whenever the underlying JSON parser rejects the input for
the duration decoder — wrong top-level type or wrongly typed field — the
parser's error is surfaced as-is and the receiver is untouched.  (An object
merely missing `"time"` or `"measure"` is not rejected: missing fields keep
their zero values and decoding proceeds.) -/
theorem time_shape_error_as_is (r : ℤ) (data : Json) (e : JsonErr)
    (h : unmarshalTimeFields data = .error e) :
    responseTime.unmarshalJSON r data = (r, some (.json e)) := by
  simp [responseTime.unmarshalJSON, h]

/-- C7 counterexample: an object missing the `"time"` field is not a decode
failure at all — the field defaults to zero and decoding succeeds with a
zero duration, contradicting the claim that a missing field yields a shape
error. -/
theorem time_missing_field_succeeds :
    responseTime.unmarshalJSON 7 (.obj [("measure", .str "seconds")]) = (0, none) := by
  with_unfolding_all decide

/-- Witness for C7 (amended): a JSON array input to the duration decoder
surfaces the JSON type error unchanged. -/
theorem time_shape_error_as_is_wit :
    responseTime.unmarshalJSON 5 (.arr []) = (5, some (.json .typeErr)) :=
  time_shape_error_as_is 5 (.arr []) .typeErr rfl

/-- C8: each decoder is deterministic — two invocations on the same receiver
and input yield identical results.  (The embedding is a pure function, as is
the Go code, which touches only locals and its receiver.) -/
theorem decoders_deterministic (data : Json) (rt : ℤ) (ru : URL) (rb : Bool)
    (o₁ o₂ : ℤ × Option GoErr) (p₁ p₂ : URL × Option GoErr)
    (q₁ q₂ : Bool × Option GoErr) :
    (responseTime.unmarshalJSON rt data = o₁ → responseTime.unmarshalJSON rt data = o₂ →
      o₁ = o₂) ∧
    (responseURL.unmarshalJSON ru data = p₁ → responseURL.unmarshalJSON ru data = p₂ →
      p₁ = p₂) ∧
    (responseBool.unmarshalJSON rb data = q₁ → responseBool.unmarshalJSON rb data = q₂ →
      q₁ = q₂) :=
  ⟨fun h1 h2 => h1.symm.trans h2, fun h1 h2 => h1.symm.trans h2,
   fun h1 h2 => h1.symm.trans h2⟩

/-- Witness for C8 at the JSON array input. -/
theorem decoders_deterministic_wit :
    (((0 : ℤ), (some (GoErr.json JsonErr.typeErr) : Option GoErr)) =
      ((0 : ℤ), some (GoErr.json JsonErr.typeErr))) ∧
    ((URL.zero, (some (GoErr.json JsonErr.typeErr) : Option GoErr)) =
      (URL.zero, some (GoErr.json JsonErr.typeErr))) ∧
    ((false, (some (GoErr.json JsonErr.typeErr) : Option GoErr)) =
      (false, some (GoErr.json JsonErr.typeErr))) := by
  obtain ⟨h1, h2, h3⟩ := decoders_deterministic (.arr []) 0 URL.zero false _ _ _ _ _ _
  exact ⟨h1 rfl rfl, h2 rfl rfl, h3 rfl rfl⟩

/-- C9: when the duration decoder returns a raw duration-parse error (the
non-`errInvalidTimeUnit` case), the receiver has been overwritten with the
zero duration; the URL and bool decoders leave their receivers unchanged on
every error. -/
theorem receiver_update_on_error :
    (∀ (r : ℤ) (data : Json) (e : DurErr),
      (responseTime.unmarshalJSON r data).2 = some (.dur e) →
      (responseTime.unmarshalJSON r data).1 = 0) ∧
    (∀ (r : URL) (data : Json) (err : GoErr),
      (responseURL.unmarshalJSON r data).2 = some err →
      (responseURL.unmarshalJSON r data).1 = r) ∧
    (∀ (r : Bool) (data : Json) (err : GoErr),
      (responseBool.unmarshalJSON r data).2 = some err →
      (responseBool.unmarshalJSON r data).1 = r) := by
  refine ⟨?_, ?_, ?_⟩
  · intro r data e h
    rcases hm : unmarshalTimeFields data with e' | v
    · simp only [responseTime.unmarshalJSON, hm] at h
      simp at h
    · simp only [responseTime.unmarshalJSON, hm] at h ⊢
      rcases hp : parseDuration (String.mk (fmtF v.time ++ (timeUnits v.measure).data))
        with de | d
      · cases de <;> simp_all [hp]
      · simp only [hp] at h
        simp at h
  · intro r data err h
    rcases hs : unmarshalString data with e | s
    · simp [responseURL.unmarshalJSON, hs]
    · rcases hu : urlParse s with e | u
      · simp [responseURL.unmarshalJSON, hs, hu]
      · simp only [responseURL.unmarshalJSON, hs, hu] at h
        simp at h
  · intro r data err h
    rcases hi : unmarshalInt data with e | v
    · simp [responseBool.unmarshalJSON, hi]
    · simp only [responseBool.unmarshalJSON, hi] at h ⊢
      by_cases h0 : v = 0
      · simp [h0] at h
      · by_cases h1 : v = 1
        · simp [h0, h1] at h
        · simp [h0, h1]

/-- Witness for C9: the overflowing duration input shows the zeroed
receiver; a JSON array and a fractional number show the untouched URL and
bool receivers. -/
theorem receiver_update_on_error_wit :
    (responseTime.unmarshalJSON 7
      (.obj [("time", .num (10 ^ 19)), ("measure", .str "minutes")])).1 = 0 ∧
    (responseURL.unmarshalJSON (URL.mk "a" "b" "c" "d" "e" "f" true true "g")
      (.arr [])).1 = URL.mk "a" "b" "c" "d" "e" "f" true true "g" ∧
    (responseBool.unmarshalJSON true (.num (1 / 2))).1 = true := by
  obtain ⟨h1, h2, h3⟩ := receiver_update_on_error
  exact ⟨h1 7 _ .invalid (by with_unfolding_all decide),
    h2 _ _ (.json .typeErr) rfl,
    h3 true _ (.json .typeErr) (by with_unfolding_all decide)⟩

/-- C10 (amended): negative times are not rejected — for every time
`-k·10^-6` (`k > 0`) and recognized measure, provided the scaled magnitude
is at most `2^63`, decoding succeeds and yields the negative duration equal
to the time scaled by the unit's magnitude.  (As with C1, general negative
times are rounded to six decimal places, so exactness fails in general.) -/
theorem time_decode_negative_exact (k : ℕ) (m : String) (r : ℤ) (hk : 0 < k)
    (hm : m = "milliseconds" ∨ m = "seconds" ∨ m = "minutes")
    (hb : k * unitScale m ≤ 2 ^ 63) :
    responseTime.unmarshalJSON r
      (.obj [("time", .num (-((k : ℚ) / 1000000))), ("measure", .str m)]) =
      (-((k * unitScale m : ℕ) : ℤ), none) ∧
    (-((k * unitScale m : ℕ) : ℤ) : ℚ) = (-((k : ℚ) / 1000000)) * (unitNanos m : ℚ) ∧
    -((k : ℚ) / 1000000) < 0 ∧
    -((k * unitScale m : ℕ) : ℤ) < 0 := by
  have hf : k % 1000000 < 10 ^ 6 := Nat.mod_lt _ (by norm_num)
  have hneg : -((k : ℚ) / 1000000) < 0 := by
    have hkq : (0 : ℚ) < (k : ℚ) := by exact_mod_cast hk
    have : (0 : ℚ) < (k : ℚ) / 1000000 := by positivity
    linarith
  rcases hm with rfl | rfl | rfl
  · have hsc : unitScale "milliseconds" = 1 := rfl
    rw [hsc] at hb ⊢
    have hIter := parseIterUnit_units k 1 ['m', 's'] (by decide) (by decide) (by decide)
      (by decide) (by omega)
    have hpd := parseDuration_negTok_ok (Nat.div_le_self _ _ |>.trans (by omega)) hf
      (by decide) hIter
    rw [responseTime_pair_parse,
      show (timeUnits "milliseconds").data = ['m', 's'] from rfl, fmtF_neg_div k hk]
    rw [show ('-' :: tok (k / 1000000) (k % 1000000)) ++ ['m', 's'] =
      '-' :: (tok (k / 1000000) (k % 1000000) ++ ['m', 's']) from rfl, hpd]
    refine ⟨rfl, ?_, hneg, ?_⟩
    · rw [show unitNanos "milliseconds" = 1000000 from rfl]
      push_cast
      field_simp
    · have : 0 < k * 1 := by omega
      omega
  · have hsc : unitScale "seconds" = 1000 := rfl
    rw [hsc] at hb ⊢
    have hIter := parseIterUnit_units k 1000 ['s'] (by decide) (by decide) (by decide)
      (by decide) hb
    have hk' : k ≤ 2 ^ 63 := le_trans (Nat.le_mul_of_pos_right k (by norm_num)) hb
    have hpd := parseDuration_negTok_ok (Nat.div_le_self _ _ |>.trans hk') hf
      (by decide) hIter
    rw [responseTime_pair_parse,
      show (timeUnits "seconds").data = ['s'] from rfl, fmtF_neg_div k hk]
    rw [show ('-' :: tok (k / 1000000) (k % 1000000)) ++ ['s'] =
      '-' :: (tok (k / 1000000) (k % 1000000) ++ ['s']) from rfl, hpd]
    refine ⟨rfl, ?_, hneg, ?_⟩
    · rw [show unitNanos "seconds" = 1000000000 from rfl]
      push_cast
      field_simp
      ring
    · have h1 : 0 < k * 1000 := by positivity
      omega
  · have hsc : unitScale "minutes" = 60000 := rfl
    rw [hsc] at hb ⊢
    have hIter := parseIterUnit_units k 60000 ['m'] (by decide) (by decide) (by decide)
      (by decide) hb
    have hk' : k ≤ 2 ^ 63 := le_trans (Nat.le_mul_of_pos_right k (by norm_num)) hb
    have hpd := parseDuration_negTok_ok (Nat.div_le_self _ _ |>.trans hk') hf
      (by decide) hIter
    rw [responseTime_pair_parse,
      show (timeUnits "minutes").data = ['m'] from rfl, fmtF_neg_div k hk]
    rw [show ('-' :: tok (k / 1000000) (k % 1000000)) ++ ['m'] =
      '-' :: (tok (k / 1000000) (k % 1000000) ++ ['m']) from rfl, hpd]
    refine ⟨rfl, ?_, hneg, ?_⟩
    · rw [show unitNanos "minutes" = 60000000000 from rfl]
      push_cast
      field_simp
      ring
    · have h1 : 0 < k * 60000 := by positivity
      omega

/-- C10 counterexample: the negative time `-2^-20` seconds decodes
successfully but to `-1000` nanoseconds, which is not exactly `-2^-20`
seconds scaled to nanoseconds — the universally quantified claim fails for
times that are not multiples of `10^-6`. -/
theorem time_decode_negative_exact_cex :
    responseTime.unmarshalJSON 0
      (.obj [("time", .num (-(1 / 2 ^ 20))), ("measure", .str "seconds")]) =
      ((-1000 : ℤ), none) ∧
    ¬ (((-1000 : ℤ) : ℚ) = (-(1 / 2 ^ 20 : ℚ)) * (unitNanos "seconds" : ℚ)) := by
  constructor
  · with_unfolding_all decide
  · with_unfolding_all decide

/-- Witness for C10 (amended): the time `-10^-6` with measure `"seconds"`
decodes to `-1000` nanoseconds. -/
theorem time_decode_negative_exact_wit :
    responseTime.unmarshalJSON 5
      (.obj [("time", .num (-((1 : ℚ) / 1000000))), ("measure", .str "seconds")]) =
      (-((1 * unitScale "seconds" : ℕ) : ℤ), none) ∧
    (-((1 * unitScale "seconds" : ℕ) : ℤ) : ℚ) =
      (-((1 : ℚ) / 1000000)) * (unitNanos "seconds" : ℚ) ∧
    -((1 : ℚ) / 1000000) < 0 ∧
    -((1 * unitScale "seconds" : ℕ) : ℤ) < 0 :=
  time_decode_negative_exact 1 "seconds" 5 (by decide) (Or.inr (Or.inl rfl)) (by decide)

end Untappd
